import Mathlib

/-!
Verification of the target-property resolution engine of
Source/cmGeneratorTarget.cxx: shallow embedding of source-list
resolution, source classification, output-name cycle detection,
linker-language selection, compatible-interface reconciliation,
link-interface caching and versioned library naming.
-/

namespace CMake

/-! ## Source list resolution
Model of processSources, AddInterfaceEntries and GetSourceFiles
(cmGeneratorTarget.cxx).  The generator-expression evaluator is an
external collaborator: an entry carries the already-evaluated,
list-expanded result of its expression.  The debug-sources LOG message
and the context-dependence bookkeeping are not modelled (no claim
mentions them). -/

/-- Result of cmSystemTools::FileIsFullPath on a Unix platform: the
path starts with a slash or a tilde. -/
def fileIsFullPath (s : String) : Bool :=
  match s.data with
  | [] => false
  | c :: _ => c = '/' || c = '~'

/-- One TargetPropertyEntry after evaluation: the name of the link
item it came from (empty for the targets own entries, which use
NoLinkImplItem) and the expanded list of source strings produced by
evaluating its generator expression. -/
structure SrcEntry where
  targetName : String
  sources : List String
deriving Repr, DecidableEq

/-- The project-wide source table: GetOrCreateSource followed by
GetFullPath.  resolve gives the full path when the source can be
placed on disk; resolveErr gives the (possibly empty, hence Option)
error message GetFullPath reports otherwise. -/
structure SourceTable where
  resolve : String → Option String
  resolveErr : String → Option String

/-- The fatal message built when a relative path reaches an
interface-propagated entry (processSources, branch with a non-empty
originating target name). -/
def interfaceRelativeMsg (targetName src : String) : String :=
  "Target \"" ++ targetName ++ "\" contains relative path in its " ++
  "INTERFACE_SOURCES:\n  \"" ++ src ++ "\""

/-- The fatal message of the other branch of the same conditional in
processSources (relative path with no originating target name). -/
def genericRelativeMsg (tgtName src : String) : String :=
  "Found relative path while evaluating sources of \"" ++ tgtName ++
  "\":\n  \"" ++ src ++ "\"\n"

/-- First loop of processSources over one entry: resolve every source
through the project table, then check the relative-path condition
`!targetName.empty() && !FileIsFullPath(src)`; on success replace each
source by its full path.  An error carries the optional fatal
diagnostic issued before the early return. -/
def resolveSources (tbl : SourceTable) (tgtName entryTargetName : String) :
    List String → Except (Option String) (List String)
  | [] => .ok []
  | src :: rest =>
    match tbl.resolve src with
    | none => .error (tbl.resolveErr src)
    | some fullPath =>
      if entryTargetName ≠ "" && !fileIsFullPath src then
        .error (some (if entryTargetName ≠ "" then
                        interfaceRelativeMsg entryTargetName src
                      else
                        genericRelativeMsg tgtName src))
      else
        match resolveSources tbl tgtName entryTargetName rest with
        | .error d => .error d
        | .ok rest2 => .ok (fullPath :: rest2)

/-- Accumulator of processSources: the ordered result list srcs, the
uniqueSrcs membership set (modelled as a list used only through
membership) and the fatal diagnostics issued so far. -/
structure PSState where
  srcs : List String
  uniqueSrcs : List String
  diags : List String
deriving Repr, DecidableEq

def PSState.initial : PSState := ⟨[], [], []⟩

/-- Second loop of processSources: `if(uniqueSrcs.insert(src).second)
srcs.push_back(src)` — first occurrence wins, later duplicates are
dropped silently. -/
def insertUnique (st : PSState) (src : String) : PSState :=
  if src ∈ st.uniqueSrcs then st
  else { st with srcs := st.srcs ++ [src], uniqueSrcs := src :: st.uniqueSrcs }

/-- processSources: handle the entries in order; a resolution or
relative-path error issues its diagnostic and returns at once (the
C++ `return contextDependent`), keeping the sources added so far. -/
def processSources (tbl : SourceTable) (tgtName : String) :
    List SrcEntry → PSState → PSState
  | [], st => st
  | e :: rest, st =>
    match resolveSources tbl tgtName e.targetName e.sources with
    | .error d => { st with diags := st.diags ++ d.toList }
    | .ok resolved => processSources tbl tgtName rest (resolved.foldl insertUnique st)

/-- A directly linked library from the link implementation: its item
name, whether the name resolved to a project target (it->Target), and
the evaluated expansion of the synthesized
$<TARGET_PROPERTY:name,INTERFACE_SOURCES> expression. -/
structure LinkImplLib where
  name : String
  isTarget : Bool
  interfaceSources : List String
deriving Repr, DecidableEq

/-- AddInterfaceEntries for INTERFACE_SOURCES: one synthesized entry
per link-implementation library that resolved to a target, in
link-implementation order. -/
def addInterfaceEntries (libs : List LinkImplLib) : List SrcEntry :=
  (libs.filter (·.isTarget)).map fun l => ⟨l.name, l.interfaceSources⟩

/-- GetSourceFiles (configure done): process the targets own source
entries first, then the interface-propagated entries, sharing one
uniqueSrcs set and one output list. -/
def getSourceFiles (tbl : SourceTable) (tgtName : String)
    (own : List (List String)) (libs : List LinkImplLib) : PSState :=
  let st := processSources tbl tgtName (own.map (SrcEntry.mk "")) PSState.initial
  processSources tbl tgtName (addInterfaceEntries libs) st

/-- Specification-side deduplication: keep the first occurrence of
each element, drop later duplicates. -/
def dedupFirst (l : List String) : List String :=
  (l.foldl (fun acc x => if x ∈ acc then acc else acc ++ [x]) [])

/-- The state invariant of processSources: the output list has no
duplicates and agrees with the uniqueSrcs membership set. -/
def PSState.good (st : PSState) : Prop :=
  st.srcs.Nodup ∧ ∀ x, x ∈ st.srcs ↔ x ∈ st.uniqueSrcs

theorem insertUnique_good {st : PSState} (h : st.good) (s : String) :
    (insertUnique st s).good := by
  obtain ⟨hnd, hiff⟩ := h
  unfold insertUnique
  by_cases hmem : s ∈ st.uniqueSrcs
  · simp [hmem, PSState.good, hnd, hiff]
  · have hns : s ∉ st.srcs := fun hs => hmem ((hiff s).1 hs)
    simp only [hmem, if_false]
    refine ⟨?_, ?_⟩
    · simp [List.nodup_append, hnd, List.disjoint_singleton, hns]
    · intro x
      simp only [List.mem_append, List.mem_singleton, List.mem_cons]
      rw [hiff x]
      tauto

theorem foldl_insertUnique_good {st : PSState} (h : st.good) (l : List String) :
    (l.foldl insertUnique st).good := by
  induction l generalizing st with
  | nil => exact h
  | cons a l ih => exact ih (insertUnique_good h a)

theorem processSources_good (tbl : SourceTable) (tgtName : String)
    (entries : List SrcEntry) {st : PSState} (h : st.good) :
    (processSources tbl tgtName entries st).good := by
  induction entries generalizing st with
  | nil => exact h
  | cons e rest ih =>
    unfold processSources
    cases hres : resolveSources tbl tgtName e.targetName e.sources with
    | error d => exact ⟨h.1, h.2⟩
    | ok resolved => exact ih (foldl_insertUnique_good h resolved)

/-- Folding insertUnique tracks the pure first-occurrence fold on the
output list, as long as srcs and uniqueSrcs agree on membership. -/
theorem foldl_insertUnique_srcs (l : List String) :
    ∀ st : PSState, (∀ x, x ∈ st.srcs ↔ x ∈ st.uniqueSrcs) →
    (l.foldl insertUnique st).srcs =
      l.foldl (fun acc x => if x ∈ acc then acc else acc ++ [x]) st.srcs ∧
    (∀ x, x ∈ (l.foldl insertUnique st).srcs ↔
      x ∈ (l.foldl insertUnique st).uniqueSrcs) := by
  induction l with
  | nil => intro st h; exact ⟨rfl, h⟩
  | cons a l ih =>
    intro st h
    simp only [List.foldl_cons]
    by_cases hmem : a ∈ st.uniqueSrcs
    · have hsrc : a ∈ st.srcs := (h a).2 hmem
      have hins : insertUnique st a = st := by simp [insertUnique, hmem]
      rw [hins, if_pos hsrc]
      exact ih st h
    · have hsrc : a ∉ st.srcs := fun hs => hmem ((h a).1 hs)
      have hins : insertUnique st a =
          { st with srcs := st.srcs ++ [a], uniqueSrcs := a :: st.uniqueSrcs } := by
        simp [insertUnique, hmem]
      rw [hins, if_neg hsrc]
      refine ih _ ?_
      intro x
      simp only [List.mem_append, List.mem_singleton, List.mem_cons]
      rw [h x]
      tauto

theorem foldl_insertUnique_diags (l : List String) :
    ∀ st : PSState, (l.foldl insertUnique st).diags = st.diags := by
  induction l with
  | nil => intro st; rfl
  | cons a l ih =>
    intro st
    rw [List.foldl_cons, ih]
    unfold insertUnique
    by_cases hmem : a ∈ st.uniqueSrcs <;> simp [hmem]

/-- When every source of a list resolves through the table and the
entry is either a direct one (empty target name) or carries only full
paths, the first loop of processSources succeeds and maps each source
to its full path. -/
theorem resolveSources_ok (tbl : SourceTable) (tgtName etn : String)
    (f : String → String) (ss : List String)
    (hres : ∀ s ∈ ss, tbl.resolve s = some (f s))
    (hfull : etn = "" ∨ ∀ s ∈ ss, fileIsFullPath s = true) :
    resolveSources tbl tgtName etn ss = .ok (ss.map f) := by
  induction ss with
  | nil => rfl
  | cons s rest ih =>
    have hs : tbl.resolve s = some (f s) := hres s (List.mem_cons_self s rest)
    have hcond : (etn ≠ "" && !fileIsFullPath s) = false := by
      rcases hfull with h | h
      · simp [h]
      · simp [h s (List.mem_cons_self s rest)]
    have hrest : resolveSources tbl tgtName etn rest = .ok (rest.map f) := by
      refine ih (fun x hx => hres x (List.mem_cons_of_mem s hx)) ?_
      rcases hfull with h | h
      · exact Or.inl h
      · exact Or.inr fun x hx => h x (List.mem_cons_of_mem s hx)
    unfold resolveSources
    rw [hs]
    simp only [hcond, Bool.false_eq_true, if_false, hrest, List.map_cons]

/-- processSources over entries that all resolve cleanly is the fold
of the deduplicating insert over the concatenation of the resolved
per-entry lists. -/
theorem processSources_ok (tbl : SourceTable) (tgtName : String)
    (f : String → String) (entries : List SrcEntry) :
    ∀ st : PSState,
    (∀ e ∈ entries, resolveSources tbl tgtName e.targetName e.sources =
        .ok (e.sources.map f)) →
    processSources tbl tgtName entries st =
      (((entries.map (·.sources)).flatten).map f).foldl insertUnique st := by
  induction entries with
  | nil => intro st _; rfl
  | cons e rest ih =>
    intro st h
    have he := h e (List.mem_cons_self e rest)
    unfold processSources
    rw [he]
    simp only [List.map_cons, List.flatten_cons, List.map_append,
      List.foldl_append]
    exact ih _ (fun x hx => h x (List.mem_cons_of_mem e hx))

/-- Claim C1: for a clean evaluation (every source placed by the
project table, interface-propagated sources given as full paths), the
resolved source list of GetSourceFiles has no duplicate paths and is
exactly the first-occurrence deduplication of the own entries in
declaration order followed by the interface-propagated entries (one
synthesized INTERFACE_SOURCES entry per resolved directly linked
library) in link-implementation order. -/
theorem getSourceFiles_nodup_firstOccurrenceOrder
    (tbl : SourceTable) (tgtName : String) (f : String → String)
    (own : List (List String)) (libs : List LinkImplLib)
    (hown : ∀ s ∈ own.flatten, tbl.resolve s = some (f s))
    (hiface : ∀ l ∈ libs, l.isTarget = true →
      ∀ s ∈ l.interfaceSources,
        tbl.resolve s = some (f s) ∧ fileIsFullPath s = true) :
    (getSourceFiles tbl tgtName own libs).srcs =
      dedupFirst ((own.flatten ++
        ((libs.filter (·.isTarget)).map (·.interfaceSources)).flatten).map f) ∧
    (getSourceFiles tbl tgtName own libs).srcs.Nodup := by
  constructor
  · have hownEntries : ∀ e ∈ own.map (SrcEntry.mk ""),
        resolveSources tbl tgtName e.targetName e.sources = .ok (e.sources.map f) := by
      intro e he
      obtain ⟨l, hl, rfl⟩ := List.mem_map.1 he
      refine resolveSources_ok tbl tgtName _ f l ?_ (Or.inl rfl)
      intro s hs
      exact hown s (List.mem_flatten.2 ⟨l, hl, hs⟩)
    have hifaceEntries : ∀ e ∈ addInterfaceEntries libs,
        resolveSources tbl tgtName e.targetName e.sources = .ok (e.sources.map f) := by
      intro e he
      obtain ⟨l, hl, rfl⟩ := List.mem_map.1 he
      have hlt := List.mem_filter.1 hl
      refine resolveSources_ok tbl tgtName _ f _ ?_ (Or.inr ?_)
      · intro s hs
        exact (hiface l hlt.1 (by simpa using hlt.2) s hs).1
      · intro s hs
        exact (hiface l hlt.1 (by simpa using hlt.2) s hs).2
    unfold getSourceFiles
    rw [processSources_ok tbl tgtName f _ _ hownEntries,
        processSources_ok tbl tgtName f _ _ hifaceEntries]
    have hm1 : (own.map (SrcEntry.mk "")).map (·.sources) = own := by
      simp [Function.comp_def]
    have hm2 : (addInterfaceEntries libs).map (·.sources) =
        (libs.filter (·.isTarget)).map (·.interfaceSources) := by
      simp [addInterfaceEntries]
    rw [hm1, hm2]
    have h1 := foldl_insertUnique_srcs (own.flatten.map f) PSState.initial
      (by intro x; simp [PSState.initial])
    have h2 := foldl_insertUnique_srcs
      ((((libs.filter (·.isTarget)).map (·.interfaceSources)).flatten).map f)
      (own.flatten.map f |>.foldl insertUnique PSState.initial) h1.2
    rw [h2.1, h1.1]
    simp only [PSState.initial]
    rw [dedupFirst, List.map_append, List.foldl_append]
  · exact (processSources_good tbl tgtName _
      (processSources_good tbl tgtName _ ⟨List.nodup_nil, by simp [PSState.initial]⟩)).1

/-- Witness for C1 at a concrete project: two own entries with an
internal duplicate and one linked target propagating one more
source. -/
theorem getSourceFiles_nodup_firstOccurrenceOrder_witness :
    (getSourceFiles
      ⟨fun s => some ("/p/" ++ s), fun _ => none⟩ "tgt"
      [["a.c", "b.c"], ["a.c"]]
      [⟨"L", true, ["/q/i.c"]⟩]).srcs =
      ["/p/a.c", "/p/b.c", "/p//q/i.c"] := by
  have h := getSourceFiles_nodup_firstOccurrenceOrder
    ⟨fun s => some ("/p/" ++ s), fun _ => none⟩ "tgt" (fun s => "/p/" ++ s)
    [["a.c", "b.c"], ["a.c"]]
    [⟨"L", true, ["/q/i.c"]⟩]
    (by decide) (by decide)
  rw [h.1]
  decide

/-- Counterexample to claim C9: a relative path evaluated directly
(no originating target name) does not cause any fatal error; the
guard `!targetName.empty() && !FileIsFullPath(src)` never fires for
direct entries, so the generic relative-path message branch is
unreachable.  Here "foo.c" is relative, yet GetSourceFiles issues no
diagnostic and resolves it to its full path. -/
theorem direct_relative_source_issues_no_error :
    fileIsFullPath "foo.c" = false ∧
    (getSourceFiles ⟨fun s => some ("/proj/" ++ s), fun _ => none⟩
        "tgt" [["foo.c"]] []).diags = [] ∧
    (getSourceFiles ⟨fun s => some ("/proj/" ++ s), fun _ => none⟩
        "tgt" [["foo.c"]] []).srcs = ["/proj/foo.c"] := by
  refine ⟨rfl, rfl, rfl⟩

/-- Claim C9 (amended): a relative path in an interface-propagated
entry is a fatal error naming that targets INTERFACE_SOURCES, while a
relative path in a directly evaluated entry (empty originating target
name) produces no relative-path diagnostic at all — the only failure
of a direct entry is a source the project cannot place on disk. -/
theorem relative_source_errors :
    (∀ (tbl : SourceTable) (tgtName tn : String) (f : String → String)
        (ss : List String), tn ≠ "" →
      (∀ s ∈ ss, tbl.resolve s = some (f s)) →
      (∃ s ∈ ss, fileIsFullPath s = false) →
      ∃ s', s' ∈ ss ∧ fileIsFullPath s' = false ∧
        resolveSources tbl tgtName tn ss =
          .error (some (interfaceRelativeMsg tn s'))) ∧
    (∀ (tbl : SourceTable) (tgtName : String) (ss : List String)
        (d : Option String),
      resolveSources tbl tgtName "" ss = .error d →
      ∃ s ∈ ss, tbl.resolve s = none ∧ d = tbl.resolveErr s) := by
  constructor
  · intro tbl tgtName tn f ss htn hres hrel
    induction ss with
    | nil => simp at hrel
    | cons s rest ih =>
      have hs : tbl.resolve s = some (f s) := hres s (List.mem_cons_self s rest)
      by_cases hfp : fileIsFullPath s = false
      · refine ⟨s, List.mem_cons_self s rest, hfp, ?_⟩
        unfold resolveSources
        rw [hs]
        simp [htn, hfp]
      · have hfp' : fileIsFullPath s = true := by
          cases h : fileIsFullPath s
          · exact absurd h hfp
          · rfl
        have hrel' : ∃ x ∈ rest, fileIsFullPath x = false := by
          obtain ⟨x, hx, hxf⟩ := hrel
          rcases List.mem_cons.1 hx with rfl | hx'
          · exact absurd hxf (by simp [hfp'])
          · exact ⟨x, hx', hxf⟩
        obtain ⟨s', hmem, hsf, heq⟩ :=
          ih (fun x hx => hres x (List.mem_cons_of_mem s hx)) hrel'
        refine ⟨s', List.mem_cons_of_mem s hmem, hsf, ?_⟩
        unfold resolveSources
        rw [hs]
        simp only [hfp', Bool.not_true, Bool.and_false, Bool.false_eq_true,
          if_false, heq]
  · intro tbl tgtName ss
    induction ss with
    | nil => intro d h; exact absurd h (by simp [resolveSources])
    | cons s rest ih =>
      intro d h
      unfold resolveSources at h
      cases hs : tbl.resolve s with
      | none =>
        rw [hs] at h
        exact ⟨s, List.mem_cons_self s rest,
          hs, by injection h with h2; exact h2.symm⟩
      | some fp =>
        rw [hs] at h
        simp only [ne_eq, not_true_eq_false, decide_False, Bool.false_and,
          Bool.false_eq_true, if_false] at h
        cases hrest : resolveSources tbl tgtName "" rest with
        | error d2 =>
          rw [hrest] at h
          injection h with h2
          obtain ⟨x, hx, hxn, hxd⟩ := ih d2 hrest
          exact ⟨x, List.mem_cons_of_mem s hx, hxn, h2 ▸ hxd⟩
        | ok r =>
          rw [hrest] at h
          exact absurd h (by simp)

/-- Witness for the amended C9: a linked target "L" propagating the
relative source "rel.c" triggers the INTERFACE_SOURCES fatal
message. -/
theorem relative_source_errors_witness :
    resolveSources ⟨fun s => some ("/p/" ++ s), fun _ => none⟩ "tgt" "L"
      ["rel.c"] = .error (some (interfaceRelativeMsg "L" "rel.c")) := by
  obtain ⟨s', hmem, _, heq⟩ := relative_source_errors.1
    ⟨fun s => some ("/p/" ++ s), fun _ => none⟩ "tgt" "L"
    (fun s => "/p/" ++ s) ["rel.c"] (by decide) (by decide)
    ⟨"rel.c", by decide, by decide⟩
  have hs : s' = "rel.c" := by
    simpa using hmem
  rw [hs] at heq
  exact heq

/-! ## Source classification
Model of TagVisitor::Accept and reportBadObjLib
(cmGeneratorTarget.cxx).  The per-tag DoAccept dispatch appends the
file to the requested category list; classification itself is the
if/else chain of Accept, identical for every tag, so it is modelled
as one function into a category type. -/

inductive TargetType
  | executable | staticLibrary | sharedLibrary | moduleLibrary
  | objectLibrary | utility | interfaceLibrary | globalTarget
deriving DecidableEq, Repr

structure SourceFile where
  fullPath : String
  locationName : String
  ext : String
  hasCustomCommand : Bool
  headerFileOnly : Bool
  externalObject : Bool
  language : String
deriving DecidableEq, Repr

inductive SourceCategory
  | customCommands | extraSources | headerSources | externalObjects
  | objectSources | moduleDefinitionFile | idlSources | resxSources
  | appManifest | manifests | certificates | xamlSources
deriving DecidableEq, Repr, Fintype

/-- cmSystemTools::LowerCase on ASCII extensions. -/
def lowerCase (s : String) : String :=
  String.mk (s.data.map fun c =>
    if c.isUpper then Char.ofNat (c.toNat + 32) else c)

/-- The ambient data of a classification pass: the target type, the
CM_HEADER_REGEX match on the full path, and the generator ignore-file
extension list.  Note that Accept lowercases the extension for the
dedicated-extension tests but passes the original extension to
IgnoreFile. -/
structure ClassifierContext where
  targetType : TargetType
  headerMatches : String → Bool
  ignoreExt : String → Bool

/-- The extension-dispatch tail of TagVisitor::Accept, reached when
none of the five leading flag checks matched: the dedicated-extension
branches, the header-pattern match, the generator ignore list and the
default extra-sources branch.  The second component records the
push onto BadObjLibFiles (def and idl branches, OBJECT library
only). -/
def acceptTail (ctx : ClassifierContext) (sf : SourceFile) :
    SourceCategory × Bool :=
  let objLib := ctx.targetType = .objectLibrary
  let ext := lowerCase sf.ext
  if ext = "def" then (.moduleDefinitionFile, objLib)
  else if ext = "idl" then (.idlSources, objLib)
  else if ext = "resx" then (.resxSources, false)
  else if ext = "appxmanifest" then (.appManifest, false)
  else if ext = "manifest" then (.manifests, false)
  else if ext = "pfx" then (.certificates, false)
  else if ext = "xaml" then (.xamlSources, false)
  else if ctx.headerMatches sf.fullPath then (.headerSources, false)
  else if ctx.ignoreExt sf.ext then (.extraSources, false)
  else (.extraSources, false)

/-- TagVisitor::Accept for one source file: the first-match category
and whether the file was pushed onto BadObjLibFiles (which happens
only in the external-object, def and idl branches, and only for an
OBJECT library target). -/
def accept (ctx : ClassifierContext) (sf : SourceFile) :
    SourceCategory × Bool :=
  let objLib := ctx.targetType = .objectLibrary
  if sf.hasCustomCommand then (.customCommands, false)
  else if ctx.targetType = .utility then (.extraSources, false)
  else if sf.headerFileOnly then (.headerSources, false)
  else if sf.externalObject then (.externalObjects, objLib)
  else if !sf.language.isEmpty then (.objectSources, false)
  else acceptTail ctx sf

def classify (ctx : ClassifierContext) (sf : SourceFile) : SourceCategory :=
  (accept ctx sf).1

/-- The ordered subsequence of a source list belonging to one
category (what a TagVisitor for that tag accumulates in Data). -/
def categoryList (ctx : ClassifierContext) (srcs : List SourceFile)
    (c : SourceCategory) : List SourceFile :=
  srcs.filter (fun sf => classify ctx sf = c)

/-- BadObjLibFiles accumulated over one classification pass. -/
def badObjLibFiles (ctx : ClassifierContext) (srcs : List SourceFile) :
    List SourceFile :=
  srcs.filter (fun sf => (accept ctx sf).2)

/-- reportBadObjLib: a single fatal diagnostic listing every offender,
issued from the TagVisitor destructor only when the list is
nonempty. -/
def reportBadObjLib (targetName : String) (bad : List SourceFile) :
    List String :=
  if bad.isEmpty then []
  else ["OBJECT library \"" ++ targetName ++ "\" contains:\n" ++
        String.join (bad.map (fun sf => "  " ++ sf.locationName ++ "\n")) ++
        "but may contain only sources that compile, header files, and " ++
        "other files that would not affect linking of a normal library."]

/-- Diagnostics of one complete classification query (visit every
source, then run the destructor report). -/
def classificationDiagnostics (ctx : ClassifierContext)
    (targetName : String) (srcs : List SourceFile) : List String :=
  reportBadObjLib targetName (badObjLibFiles ctx srcs)

theorem mem_categoryList {ctx : ClassifierContext} {srcs : List SourceFile}
    {c : SourceCategory} {sf : SourceFile} :
    sf ∈ categoryList ctx srcs c ↔ sf ∈ srcs ∧ classify ctx sf = c := by
  simp [categoryList]

/-- Claim C2: the classifier assigns each source exactly one category
by the fixed first-match chain, so the category sets are pairwise
disjoint, they cover the resolved source list, and their sizes sum to
its length. -/
theorem classification_partition (ctx : ClassifierContext)
    (srcs : List SourceFile) :
    (∀ c₁ c₂ : SourceCategory, c₁ ≠ c₂ →
      ∀ sf, ¬(sf ∈ categoryList ctx srcs c₁ ∧ sf ∈ categoryList ctx srcs c₂)) ∧
    (∀ sf, sf ∈ srcs ↔ ∃ c, sf ∈ categoryList ctx srcs c) ∧
    (∑ c : SourceCategory, (categoryList ctx srcs c).length) = srcs.length := by
  refine ⟨?_, ?_, ?_⟩
  · intro c₁ c₂ hne sf ⟨h1, h2⟩
    exact hne ((mem_categoryList.1 h1).2.symm.trans (mem_categoryList.1 h2).2)
  · intro sf
    constructor
    · intro h
      exact ⟨classify ctx sf, mem_categoryList.2 ⟨h, rfl⟩⟩
    · rintro ⟨c, hc⟩
      exact (mem_categoryList.1 hc).1
  · induction srcs with
    | nil => simp [categoryList]
    | cons sf rest ih =>
      have hstep : ∀ c : SourceCategory,
          (categoryList ctx (sf :: rest) c).length =
          (if classify ctx sf = c then 1 else 0) + (categoryList ctx rest c).length := by
        intro c
        by_cases h : classify ctx sf = c <;>
          simp [categoryList, List.filter_cons, h, Nat.add_comm]
      calc (∑ c : SourceCategory, (categoryList ctx (sf :: rest) c).length)
          = ∑ c : SourceCategory, ((if classify ctx sf = c then 1 else 0) +
              (categoryList ctx rest c).length) := by
            exact Finset.sum_congr rfl (fun c _ => hstep c)
        _ = (∑ c : SourceCategory, if classify ctx sf = c then 1 else 0) +
              ∑ c : SourceCategory, (categoryList ctx rest c).length := by
            rw [Finset.sum_add_distrib]
        _ = 1 + rest.length := by
            rw [ih, Finset.sum_ite_eq]
            simp
        _ = (sf :: rest).length := by
            simp [Nat.add_comm]

/-- Witness for C2 at a concrete pass: one compiled file and one
header in a static library. -/
theorem classification_partition_witness :
    (∑ c : SourceCategory,
      (categoryList ⟨.staticLibrary, fun _ => false, fun _ => false⟩
        [⟨"/p/a.c", "a.c", "c", false, false, false, "C"⟩,
         ⟨"/p/a.h", "a.h", "h", false, true, false, ""⟩] c).length) = 2 := by
  exact (classification_partition
    ⟨.staticLibrary, fun _ => false, fun _ => false⟩
    [⟨"/p/a.c", "a.c", "c", false, false, false, "C"⟩,
     ⟨"/p/a.h", "a.h", "h", false, true, false, ""⟩]).2.2

/-- The offender-recording characterisation: the second Accept
component is set exactly for an OBJECT library whose file lands in
the external-object, def or idl branch. -/
def offenderSpec (objLib : Prop) (p : SourceCategory × Bool) : Prop :=
  p.2 = true ↔
  (objLib ∧ (p.1 = .externalObjects ∨ p.1 = .moduleDefinitionFile ∨
             p.1 = .idlSources))

theorem acceptTail_offenderSpec (ctx : ClassifierContext)
    (sf : SourceFile) :
    offenderSpec (ctx.targetType = .objectLibrary) (acceptTail ctx sf) := by
  dsimp only [acceptTail]
  split
  · simp [offenderSpec]
  split
  · simp [offenderSpec]
  split
  · simp [offenderSpec]
  split
  · simp [offenderSpec]
  split
  · simp [offenderSpec]
  split
  · simp [offenderSpec]
  split
  · simp [offenderSpec]
  split
  · simp [offenderSpec]
  split
  · simp [offenderSpec]
  simp [offenderSpec]

theorem accept_offenderSpec (ctx : ClassifierContext) (sf : SourceFile) :
    offenderSpec (ctx.targetType = .objectLibrary) (accept ctx sf) := by
  dsimp only [accept]
  split
  · simp [offenderSpec]
  split
  · simp [offenderSpec]
  split
  · simp [offenderSpec]
  split
  · simp [offenderSpec]
  split
  · simp [offenderSpec]
  exact acceptTail_offenderSpec ctx sf

/-- BadObjLibFiles membership characterised: a file is pushed exactly
in the external-object, def and idl branches of Accept, and only for
an OBJECT library; in particular the pfx (certificate) branch never
pushes. -/
theorem accept_bad_iff (ctx : ClassifierContext) (sf : SourceFile) :
    (accept ctx sf).2 = true ↔
    (ctx.targetType = .objectLibrary ∧
      (classify ctx sf = .externalObjects ∨
       classify ctx sf = .moduleDefinitionFile ∨
       classify ctx sf = .idlSources)) :=
  accept_offenderSpec ctx sf

/-- Counterexample to claim C8: in an OBJECT library a certificate
(pfx) source is classified into the certificates category but is not
recorded as an error-reportable offender, and no diagnostic is
issued for it. -/
theorem pfx_not_collected_as_offender :
    classify ⟨.objectLibrary, fun _ => false, fun _ => false⟩
      ⟨"/p/cert.pfx", "cert.pfx", "pfx", false, false, false, ""⟩ =
        .certificates ∧
    badObjLibFiles ⟨.objectLibrary, fun _ => false, fun _ => false⟩
      [⟨"/p/cert.pfx", "cert.pfx", "pfx", false, false, false, ""⟩] = [] ∧
    classificationDiagnostics ⟨.objectLibrary, fun _ => false, fun _ => false⟩
      "obj" [⟨"/p/cert.pfx", "cert.pfx", "pfx", false, false, false, ""⟩] =
        [] := by
  refine ⟨rfl, rfl, rfl⟩

/-- Claim C8 (amended): for an OBJECT library, exactly the sources
classified as external objects, def files or idl files are recorded
as offenders — certificate (pfx) files are not — and all offenders
collected during one classification query are reported together in a
single fatal diagnostic listing each of them, issued once the pass
completes and only when there is at least one offender. -/
theorem objlib_offenders_single_report (ctx : ClassifierContext)
    (hobj : ctx.targetType = .objectLibrary)
    (targetName : String) (srcs : List SourceFile) :
    (∀ sf ∈ srcs,
      (classify ctx sf = .moduleDefinitionFile ∨
       classify ctx sf = .idlSources ∨
       classify ctx sf = .externalObjects) →
      sf ∈ badObjLibFiles ctx srcs) ∧
    (∀ sf ∈ srcs, classify ctx sf = .certificates →
      sf ∉ badObjLibFiles ctx srcs) ∧
    (badObjLibFiles ctx srcs = [] →
      classificationDiagnostics ctx targetName srcs = []) ∧
    (badObjLibFiles ctx srcs ≠ [] →
      classificationDiagnostics ctx targetName srcs =
        ["OBJECT library \"" ++ targetName ++ "\" contains:\n" ++
         String.join ((badObjLibFiles ctx srcs).map
           (fun sf => "  " ++ sf.locationName ++ "\n")) ++
         "but may contain only sources that compile, header files, and " ++
         "other files that would not affect linking of a normal library."]) := by
  refine ⟨?_, ?_, ?_, ?_⟩
  · intro sf hmem hcat
    refine List.mem_filter.2 ⟨hmem, ?_⟩
    have : (accept ctx sf).2 = true :=
      (accept_bad_iff ctx sf).2 ⟨hobj, by tauto⟩
    simpa using this
  · intro sf _ hcat hbad
    have h2 : (accept ctx sf).2 = true := by
      simpa using (List.mem_filter.1 hbad).2
    have h3 := ((accept_bad_iff ctx sf).1 h2).2
    rcases h3 with h | h | h <;> rw [hcat] at h <;> exact absurd h (by decide)
  · intro h
    simp [classificationDiagnostics, reportBadObjLib, h]
  · intro h
    have : (badObjLibFiles ctx srcs).isEmpty = false := by
      cases hb : badObjLibFiles ctx srcs with
      | nil => exact absurd hb h
      | cons a l => simp
    simp [classificationDiagnostics, reportBadObjLib, this]

/-- Witness for the amended C8: an OBJECT library with one def file
and one idl file gets both offenders in one fatal message. -/
theorem objlib_offenders_single_report_witness :
    classificationDiagnostics ⟨.objectLibrary, fun _ => false, fun _ => false⟩
      "obj"
      [⟨"/p/m.def", "m.def", "def", false, false, false, ""⟩,
       ⟨"/p/i.idl", "i.idl", "idl", false, false, false, ""⟩] =
      ["OBJECT library \"obj\" contains:\n  m.def\n  i.idl\n" ++
       "but may contain only sources that compile, header files, and " ++
       "other files that would not affect linking of a normal library."] := by
  have h := (objlib_offenders_single_report
    ⟨.objectLibrary, fun _ => false, fun _ => false⟩ rfl "obj"
    [⟨"/p/m.def", "m.def", "def", false, false, false, ""⟩,
     ⟨"/p/i.idl", "i.idl", "idl", false, false, false, ""⟩]).2.2.2
    (by decide)
  rw [h]
  rfl

/-! ## Output name cycle detection
Model of cmGeneratorTarget::GetOutputName.  The per-target
OutputNameMap entry for one fixed (config, implib) key is a map from
targets to an optional cached string; the empty string is the
sentinel inserted before evaluation.  The generator-expression
evaluator is the external collaborator: the OUTPUT_NAME property
chain (config-specific variants then OUTPUT_NAME, else the target
name) is resolved to either a plain string or a
$<TARGET_PROPERTY:other,OUTPUT_NAME> reference that re-enters
GetOutputName on the referenced target. -/

/-- The resolved OUTPUT_NAME expression of a target: a literal value,
or a reference to another targets output name. -/
inductive OutExpr (n : Nat) where
  | lit (s : String)
  | ref (t : Fin n)

/-- A project of n targets with their names and resolved OUTPUT_NAME
expressions. -/
structure OutputNameWorld (n : Nat) where
  name : Fin n → String
  outNameProp : Fin n → OutExpr n

/-- The fatal diagnostic of the recursion branch of GetOutputName. -/
def fatalSelfMsg (name : String) : String :=
  "Target '" ++ name ++ "' OUTPUT_NAME depends on itself."

/-- GetOutputName with explicit fuel: none models fuel exhaustion
(which the theorems rule out), otherwise the returned name, the
updated cache maps and the issued diagnostics.  An existing empty map
entry means we were called recursively from our own evaluation: the
fatal diagnostic is issued and the empty value returned.  Otherwise
the sentinel is inserted, the property expression evaluated (possibly
re-entering on another target) and the map entry updated. -/
def getOutputName {n : Nat} (w : OutputNameWorld n) :
    Nat → Fin n → (Fin n → Option String) →
    Option (String × (Fin n → Option String) × List String)
  | 0, _, _ => none
  | fuel+1, t, m =>
    match m t with
    | some v =>
      if v = "" then some ("", m, [fatalSelfMsg (w.name t)])
      else some (v, m, [])
    | none =>
      let m1 := fun u => if u = t then some "" else m u
      match w.outNameProp t with
      | .lit s => some (s, fun u => if u = t then some s else m1 u, [])
      | .ref r =>
        match getOutputName w fuel r m1 with
        | none => none
        | some (s, m2, ds) =>
            some (s, fun u => if u = t then some s else m2 u, ds)

/-- Following the OUTPUT_NAME reference chain for a given number of
steps; none when a literal is reached first. -/
def chase {n : Nat} (w : OutputNameWorld n) : Nat → Fin n → Option (Fin n)
  | 0, t => some t
  | k+1, t =>
    match w.outNameProp t with
    | .lit _ => none
    | .ref r => chase w k r

theorem chase_succ_lit {n : Nat} (w : OutputNameWorld n) {t : Fin n}
    {s : String} (hp : w.outNameProp t = .lit s) (k : Nat) :
    chase w (k + 1) t = none := by
  unfold chase
  rw [hp]

theorem chase_succ_ref {n : Nat} (w : OutputNameWorld n) {t r : Fin n}
    (hp : w.outNameProp t = .ref r) (k : Nat) :
    chase w (k + 1) t = chase w k r := by
  conv_lhs => unfold chase
  rw [hp]

theorem chase_append {n : Nat} (w : OutputNameWorld n) :
    ∀ (a : Nat) (t u : Fin n), chase w a t = some u →
    ∀ b, chase w (a + b) t = chase w b u := by
  intro a
  induction a with
  | zero =>
    intro t u h b
    simp only [chase] at h
    cases h
    simp [Nat.zero_add]
  | succ a ih =>
    intro t u h b
    cases hp : w.outNameProp t with
    | lit s => rw [chase_succ_lit w hp a] at h; exact absurd h (by simp)
    | ref r =>
      rw [chase_succ_ref w hp a] at h
      have harith : a + 1 + b = (a + b) + 1 := by omega
      rw [harith, chase_succ_ref w hp (a + b)]
      exact ih r u h b

/-- Walking a fresh, duplicate-free reference chain whose end point
carries the sentinel produces exactly the depends-on-itself fatal
diagnostic for that end point, within fuel. -/
theorem getOutputName_hits_sentinel {n : Nat} (w : OutputNameWorld n) :
    ∀ (j : Nat) (t r : Fin n) (m : Fin n → Option String) (fuel : Nat),
    j + 1 ≤ fuel →
    chase w j t = some r →
    m r = some "" →
    (∀ i < j, ∀ v, chase w i t = some v → m v = none) →
    (∀ i1 i2, i1 < i2 → i2 < j →
      ∀ v1 v2, chase w i1 t = some v1 → chase w i2 t = some v2 → v1 ≠ v2) →
    ∃ m2, getOutputName w fuel t m =
      some ("", m2, [fatalSelfMsg (w.name r)]) := by
  intro j
  induction j with
  | zero =>
    intro t r m fuel hfuel hch hr _ _
    simp only [chase] at hch
    cases hch
    obtain ⟨fuel2, rfl⟩ : ∃ f2, fuel = f2 + 1 := ⟨fuel - 1, by omega⟩
    refine ⟨m, ?_⟩
    unfold getOutputName
    rw [hr]
    simp
  | succ j ih =>
    intro t r m fuel hfuel hch hr hfresh hdist
    obtain ⟨fuel2, rfl⟩ : ∃ f2, fuel = f2 + 1 := ⟨fuel - 1, by omega⟩
    cases hp : w.outNameProp t with
    | lit s => rw [chase_succ_lit w hp j] at hch; exact absurd hch (by simp)
    | ref u =>
      rw [chase_succ_ref w hp j] at hch
      have hmt : m t = none := hfresh 0 (by omega) t rfl
      have hstep : ∀ i (v : Fin n), chase w i u = some v →
          chase w (i + 1) t = some v := by
        intro i v hv
        have h1 : chase w 1 t = some u := by
          rw [chase_succ_ref w hp 0]
          rfl
        rw [Nat.add_comm]
        rw [chase_append w 1 t u h1 i]
        exact hv
      have hfresh2 : ∀ i < j, ∀ v, chase w i u = some v →
          (fun x => if x = t then some "" else m x) v = none := by
        intro i hi v hv
        have hvt : v ≠ t := by
          intro hvt
          subst hvt
          exact hdist 0 (i + 1) (by omega) (by omega) v v rfl
            (hstep i v hv) rfl
        simp only [hvt, if_false]
        exact hfresh (i + 1) (by omega) v (hstep i v hv)
      have hdist2 : ∀ i1 i2, i1 < i2 → i2 < j →
          ∀ v1 v2, chase w i1 u = some v1 → chase w i2 u = some v2 →
          v1 ≠ v2 := by
        intro i1 i2 h12 h2j v1 v2 hv1 hv2
        exact hdist (i1 + 1) (i2 + 1) (by omega) (by omega) v1 v2
          (hstep i1 v1 hv1) (hstep i2 v2 hv2)
      have hr2 : (fun x => if x = t then some "" else m x) r = some "" := by
        by_cases hrt : r = t
        · simp [hrt]
        · simp only [hrt, if_false]
          exact hr
      obtain ⟨m2, hm2⟩ := ih u r _ fuel2 (by omega) hch hr2 hfresh2 hdist2
      refine ⟨fun x => if x = t then some "" else m2 x, ?_⟩
      unfold getOutputName
      rw [hmt, hp]
      simp only [hm2]

/-- Claim C3: a target whose OUTPUT_NAME resolution re-enters its own
computation through a chain of k+1 references back to itself (taken
minimal) terminates for every sufficient fuel — no unbounded
recursion — returning the empty value, and issues exactly the fatal
depends-on-itself diagnostic for that target, detected through the
sentinel empty map entry inserted before evaluation. -/
theorem outputName_cycle_detected {n : Nat} (w : OutputNameWorld n)
    (t : Fin n) (k : Nat)
    (hcyc : chase w (k + 1) t = some t)
    (hmin : ∀ i, 1 ≤ i → i ≤ k → chase w i t ≠ some t) :
    ∀ fuel, k + 2 ≤ fuel →
    ∃ m2, getOutputName w fuel t (fun _ => none) =
      some ("", m2, [fatalSelfMsg (w.name t)]) := by
  intro fuel hfuel
  obtain ⟨fuel2, rfl⟩ : ∃ f2, fuel = f2 + 1 := ⟨fuel - 1, by omega⟩
  cases hp : w.outNameProp t with
  | lit s => rw [chase_succ_lit w hp k] at hcyc; exact absurd hcyc (by simp)
  | ref u =>
    rw [chase_succ_ref w hp k] at hcyc
    have hcycFull : chase w (k + 1) t = some t := by
      rw [chase_succ_ref w hp k]
      exact hcyc
    have hstep : ∀ i (v : Fin n), chase w i u = some v →
        chase w (i + 1) t = some v := by
      intro i v hv
      have h1 : chase w 1 t = some u := by
        rw [chase_succ_ref w hp 0]
        rfl
      rw [Nat.add_comm]
      rw [chase_append w 1 t u h1 i]
      exact hv
    have hdistinct : ∀ i1 i2, i1 < i2 → i2 ≤ k →
        ∀ v1 v2, chase w i1 t = some v1 → chase w i2 t = some v2 →
        v1 ≠ v2 := by
      intro i1 i2 h12 h2k v1 v2 hv1 hv2 hvv
      subst hvv
      have hrest : chase w (k + 1 - i2) v1 = some t := by
        have := chase_append w i2 t v1 hv2 (k + 1 - i2)
        rw [show i2 + (k + 1 - i2) = k + 1 by omega] at this
        rw [← this]
        exact hcycFull
      have hshort : chase w (i1 + (k + 1 - i2)) t = some t := by
        rw [chase_append w i1 t v1 hv1 (k + 1 - i2)]
        exact hrest
      exact hmin (i1 + (k + 1 - i2)) (by omega) (by omega) hshort
    have hsentinel : (fun x : Fin n =>
        if x = t then some "" else (none : Option String)) t = some "" := by
      simp
    have hfresh : ∀ i < k, ∀ v, chase w i u = some v →
        (fun x : Fin n => if x = t then some "" else
          (none : Option String)) v = none := by
      intro i hi v hv
      have hvt : v ≠ t := by
        intro hvt
        subst hvt
        exact hmin (i + 1) (by omega) (by omega) (hstep i v hv)
      simp [hvt]
    have hdist2 : ∀ i1 i2, i1 < i2 → i2 < k →
        ∀ v1 v2, chase w i1 u = some v1 → chase w i2 u = some v2 →
        v1 ≠ v2 := by
      intro i1 i2 h12 h2k v1 v2 hv1 hv2
      exact hdistinct (i1 + 1) (i2 + 1) (by omega) (by omega) v1 v2
        (hstep i1 v1 hv1) (hstep i2 v2 hv2)
    obtain ⟨m2, hm2⟩ := getOutputName_hits_sentinel w k u t _ fuel2
      (by omega) hcyc hsentinel hfresh hdist2
    refine ⟨fun x => if x = t then some "" else m2 x, ?_⟩
    unfold getOutputName
    rw [hp]
    simp only [hm2]

/-- Witness for C3: two targets whose output names reference each
other; resolution of the first terminates with the fatal diagnostic
naming it. -/
theorem outputName_cycle_detected_witness :
    ∃ m2, getOutputName
      ⟨fun i => if (i : Nat) = 0 then "A" else "B",
       fun i => if (i : Nat) = 0 then .ref 1 else .ref 0⟩
      3 (0 : Fin 2) (fun _ => none) =
      some ("", m2, [fatalSelfMsg "A"]) := by
  have h := outputName_cycle_detected
    (n := 2)
    ⟨fun i => if (i : Nat) = 0 then "A" else "B",
     fun i => if (i : Nat) = 0 then .ref 1 else .ref 0⟩
    0 1 (by decide)
    (by
      intro i h1 h2
      have : i = 1 := by omega
      subst this
      decide)
    3 (by omega)
  simpa using h

/-! ## Linker language selection
Model of cmTargetSelectLinker and the linker-language part of
cmGeneratorTarget::ComputeLinkClosure.  The global generator supplies
the per-language linker preference; the makefile supplies the
CMAKE_LANG_LINKER_PREFERENCE_PROPAGATES flags. -/

structure LinkerEnv where
  linkerPreference : String → Int
  preferencePropagates : String → Bool

/-- The state of cmTargetSelectLinker: the running highest preference
(initially 0) and the std::set of languages holding it, modelled as a
sorted duplicate-free list. -/
structure SelectLinkerState where
  preference : Int
  preferred : List String
deriving Repr, DecidableEq

/-- Ordered insertion into the sorted set (std::set::insert). -/
def setInsert : List String → String → List String
  | [], s => [s]
  | x :: xs, s =>
    if s = x then x :: xs
    else if s < x then s :: x :: xs
    else x :: setInsert xs s

/-- cmTargetSelectLinker::Consider: a strictly higher preference
clears the set; an equal preference inserts the language. -/
def considerLang (env : LinkerEnv) (st : SelectLinkerState)
    (lang : String) : SelectLinkerState :=
  let p := env.linkerPreference lang
  let st1 := if st.preference < p then
               { preference := p, preferred := [] }
             else st
  if p = st1.preference then
    { st1 with preferred := setInsert st1.preferred lang }
  else st1

/-- The fatal diagnostic of cmTargetSelectLinker::Choose. -/
def multipleLanguagesMsg (tgtName : String) (pref : Int)
    (langs : List String) : String :=
  "Target " ++ tgtName ++
  " contains multiple languages with the highest linker preference" ++
  " (" ++ toString pref ++ "):\n" ++
  String.join (langs.map (fun l => "  " ++ l ++ "\n")) ++
  "Set the LINKER_LANGUAGE property for this target."

/-- cmTargetSelectLinker::Choose: empty set yields the empty string;
more than one preferred language issues the fatal diagnostic; the
first element of the set is returned either way. -/
def chooseLinker (tgtName : String) (st : SelectLinkerState) :
    String × List String :=
  if st.preferred.isEmpty then ("", [])
  else if 1 < st.preferred.length then
    (st.preferred.headD "", [multipleLanguagesMsg tgtName st.preference st.preferred])
  else (st.preferred.headD "", [])

/-- The inputs of the linker-language choice in ComputeLinkClosure:
the HAS_CXX and LINKER_LANGUAGE properties (None when unset), the
languages compiled directly in the target (impl->Languages) and the
transitive closure language set collected from linked targets. -/
structure LinkerTargetInfo where
  name : String
  hasCxxProp : Option String
  linkerLanguageProp : Option String
  implLanguages : List String
  closureLanguages : List String

/-- The linker-language choice of ComputeLinkClosure: HAS_CXX (any
set value) forces CXX; else an explicit LINKER_LANGUAGE property is
used verbatim; else the preference selection over the directly
compiled languages followed by the closure languages whose
preference-propagates flag is on. -/
def computeLinkerLanguage (env : LinkerEnv) (t : LinkerTargetInfo) :
    String × List String :=
  if t.hasCxxProp.isSome then ("CXX", [])
  else match t.linkerLanguageProp with
  | some l => (l, [])
  | none =>
    let st1 := t.implLanguages.foldl (considerLang env) ⟨0, []⟩
    let st2 := (t.closureLanguages.filter env.preferencePropagates).foldl
                 (considerLang env) st1
    chooseLinker t.name st2

theorem mem_setInsert_self (l : List String) (s : String) :
    s ∈ setInsert l s := by
  induction l with
  | nil => simp [setInsert]
  | cons x xs ih =>
    unfold setInsert
    by_cases h1 : s = x
    · simp [h1]
    · by_cases h2 : s < x <;> simp [h1, h2, ih]

theorem mem_setInsert_of_mem {l : List String} {x : String} (s : String)
    (h : x ∈ l) : x ∈ setInsert l s := by
  induction l with
  | nil => simp at h
  | cons y ys ih =>
    unfold setInsert
    rcases List.mem_cons.1 h with rfl | h2
    · by_cases h1 : s = x
      · simp [h1]
      · by_cases hlt : s < x <;> simp [h1, hlt]
    · by_cases h1 : s = y
      · simp [h1, List.mem_cons.2 (Or.inr h2)]
      · by_cases hlt : s < y
        · simp [h1, hlt, List.mem_cons.2 (Or.inr h2)]
        · simp only [h1, hlt, if_false]
          exact List.mem_cons.2 (Or.inr (ih h2))

/-- The running preference after Consider is the maximum of the old
preference and the language preference. -/
theorem considerLang_preference (env : LinkerEnv)
    (st : SelectLinkerState) (lang : String) :
    (considerLang env st lang).preference =
      max st.preference (env.linkerPreference lang) := by
  unfold considerLang
  by_cases h : st.preference < env.linkerPreference lang
  · simp [h, max_eq_right (le_of_lt h)]
  · have hle := le_of_not_lt h
    by_cases h2 : env.linkerPreference lang = st.preference <;>
      simp [h, h2, max_eq_left hle]

theorem foldl_considerLang_preference (env : LinkerEnv) :
    ∀ (l : List String) (st : SelectLinkerState),
    (l.foldl (considerLang env) st).preference =
      l.foldl (fun a x => max a (env.linkerPreference x)) st.preference := by
  intro l
  induction l with
  | nil => intro st; rfl
  | cons x xs ih =>
    intro st
    simp only [List.foldl_cons]
    rw [ih, considerLang_preference]

theorem foldl_max_le {f : String → Int} :
    ∀ (l : List String) (a p : Int), a ≤ p → (∀ x ∈ l, f x ≤ p) →
    l.foldl (fun a x => max a (f x)) a ≤ p := by
  intro l
  induction l with
  | nil => intro a p ha _; exact ha
  | cons x xs ih =>
    intro a p ha hall
    simp only [List.foldl_cons]
    exact ih _ p (max_le ha (hall x (List.mem_cons_self x xs)))
      (fun y hy => hall y (List.mem_cons_of_mem x hy))

theorem le_foldl_max {f : String → Int} :
    ∀ (l : List String) (a : Int), a ≤ l.foldl (fun a x => max a (f x)) a := by
  intro l
  induction l with
  | nil => intro a; exact le_refl a
  | cons x xs ih =>
    intro a
    simp only [List.foldl_cons]
    exact le_trans (le_max_left a (f x)) (ih _)

theorem mem_le_foldl_max {f : String → Int} :
    ∀ (l : List String) (a : Int) (x : String), x ∈ l →
    f x ≤ l.foldl (fun a y => max a (f y)) a := by
  intro l
  induction l with
  | nil => intro a x hx; simp at hx
  | cons y ys ih =>
    intro a x hx
    simp only [List.foldl_cons]
    rcases List.mem_cons.1 hx with rfl | h2
    · exact le_trans (le_max_right a (f x)) (le_foldl_max ys _)
    · exact ih _ x h2

/-- The preference is monotone along a Consider fold. -/
theorem foldl_considerLang_mono (env : LinkerEnv)
    (l : List String) (st : SelectLinkerState) :
    st.preference ≤ (l.foldl (considerLang env) st).preference := by
  rw [foldl_considerLang_preference]
  exact le_foldl_max l st.preference

/-- Consider keeps the language itself when its preference equals
the resulting running preference. -/
theorem considerLang_mem_self (env : LinkerEnv) (st : SelectLinkerState)
    (lang : String)
    (h : env.linkerPreference lang = (considerLang env st lang).preference) :
    lang ∈ (considerLang env st lang).preferred := by
  have hpref := considerLang_preference env st lang
  unfold considerLang
  by_cases hlt : st.preference < env.linkerPreference lang
  · simp [hlt, mem_setInsert_self]
  · have heq : env.linkerPreference lang = st.preference := by
      rw [hpref] at h
      have := le_of_not_lt hlt
      omega
    simp [hlt, heq, mem_setInsert_self]

/-- Consider keeps existing preferred languages when the new one does
not strictly exceed the running preference. -/
theorem considerLang_preserve (env : LinkerEnv) (st : SelectLinkerState)
    (lang x : String) (hx : x ∈ st.preferred)
    (hnot : ¬ st.preference < env.linkerPreference lang) :
    x ∈ (considerLang env st lang).preferred := by
  unfold considerLang
  by_cases heq : env.linkerPreference lang = st.preference
  · simp [hnot, heq, mem_setInsert_of_mem lang hx]
  · simp [hnot, heq, hx]

/-- A language already preferred stays preferred when the fold does
not raise the running preference. -/
theorem foldl_considerLang_persist (env : LinkerEnv) :
    ∀ (l : List String) (st : SelectLinkerState) (x : String),
    x ∈ st.preferred →
    (l.foldl (considerLang env) st).preference = st.preference →
    x ∈ (l.foldl (considerLang env) st).preferred := by
  intro l
  induction l with
  | nil => intro st x hx _; exact hx
  | cons y ys ih =>
    intro st x hx hpref
    simp only [List.foldl_cons] at hpref ⊢
    have hmono := foldl_considerLang_mono env ys (considerLang env st y)
    have hstep : (considerLang env st y).preference =
        max st.preference (env.linkerPreference y) :=
      considerLang_preference env st y
    have hple : env.linkerPreference y ≤ st.preference := by
      by_contra hgt
      push_neg at hgt
      have h1 : st.preference < (considerLang env st y).preference := by
        rw [hstep]
        exact lt_max_of_lt_right hgt
      omega
    have hy : (considerLang env st y).preference = st.preference := by
      rw [hstep]
      exact max_eq_left hple
    have hxy : x ∈ (considerLang env st y).preferred :=
      considerLang_preserve env st y x hx (not_lt.2 hple)
    exact ih _ x hxy (by rw [hy]; exact hpref)

/-- A language of the fold input holding the final preference value
ends up in the preferred set. -/
theorem foldl_considerLang_mem (env : LinkerEnv) :
    ∀ (l : List String) (st : SelectLinkerState) (x : String),
    x ∈ l →
    env.linkerPreference x = (l.foldl (considerLang env) st).preference →
    x ∈ (l.foldl (considerLang env) st).preferred := by
  intro l
  induction l with
  | nil => intro st x hx; simp at hx
  | cons y ys ih =>
    intro st x hx hpref
    simp only [List.foldl_cons] at hpref ⊢
    rcases List.mem_cons.1 hx with rfl | h2
    · have hmono := foldl_considerLang_mono env ys (considerLang env st x)
      have hstep := considerLang_preference env st x
      have hx1 : env.linkerPreference x ≤ (considerLang env st x).preference := by
        rw [hstep]
        exact le_max_right _ _
      have heq1 : (considerLang env st x).preference =
          env.linkerPreference x := by omega
      have hxin : x ∈ (considerLang env st x).preferred :=
        considerLang_mem_self env st x heq1.symm
      exact foldl_considerLang_persist env ys _ x hxin (by omega)
    · exact ih _ x h2 hpref

theorem one_lt_length_of_two_mem {l : List String} {a b : String}
    (ha : a ∈ l) (hb : b ∈ l) (hab : a ≠ b) : 1 < l.length := by
  cases l with
  | nil => simp at ha
  | cons x xs =>
    cases xs with
    | nil =>
      simp only [List.mem_singleton] at ha hb
      exact absurd (ha.trans hb.symm) hab
    | cons y ys => simp [List.length_cons]

/-- Claim C4: two distinct languages sharing the equal highest
linker preference among directly compiled languages and propagating
closure languages, with no HAS_CXX and no explicit LINKER_LANGUAGE
override, make the linker choice issue the single fatal
multiple-languages diagnostic that lists both tied languages and the
top preference and tells the user to set LINKER_LANGUAGE. -/
theorem linker_tie_is_fatal (env : LinkerEnv) (t : LinkerTargetInfo)
    (A B : String) (p : Int)
    (hcxx : t.hasCxxProp = none)
    (hll : t.linkerLanguageProp = none)
    (hAB : A ≠ B)
    (hA : A ∈ t.implLanguages ++
      t.closureLanguages.filter env.preferencePropagates)
    (hB : B ∈ t.implLanguages ++
      t.closureLanguages.filter env.preferencePropagates)
    (hpA : env.linkerPreference A = p)
    (hpB : env.linkerPreference B = p)
    (hp0 : 0 ≤ p)
    (hmax : ∀ l ∈ t.implLanguages ++
      t.closureLanguages.filter env.preferencePropagates,
      env.linkerPreference l ≤ p) :
    ∃ langs, (computeLinkerLanguage env t).2 =
        [multipleLanguagesMsg t.name p langs] ∧
      A ∈ langs ∧ B ∈ langs := by
  have hfold : computeLinkerLanguage env t =
      chooseLinker t.name
        ((t.implLanguages ++
          t.closureLanguages.filter env.preferencePropagates).foldl
            (considerLang env) ⟨0, []⟩) := by
    unfold computeLinkerLanguage
    rw [hcxx, hll]
    simp [List.foldl_append]
  have hcalc : ((t.implLanguages ++
      t.closureLanguages.filter env.preferencePropagates).foldl
        (considerLang env) ⟨0, []⟩).preference =
      (t.implLanguages ++
        t.closureLanguages.filter env.preferencePropagates).foldl
        (fun a x => max a (env.linkerPreference x)) 0 := by
    rw [foldl_considerLang_preference]
  have hle : (t.implLanguages ++
      t.closureLanguages.filter env.preferencePropagates).foldl
        (fun a x => max a (env.linkerPreference x)) 0 ≤ p :=
    foldl_max_le _ 0 p hp0 hmax
  have hge : p ≤ (t.implLanguages ++
      t.closureLanguages.filter env.preferencePropagates).foldl
        (fun a x => max a (env.linkerPreference x)) 0 := by
    rw [← hpA]
    exact mem_le_foldl_max _ 0 A hA
  have hprefF : ((t.implLanguages ++
      t.closureLanguages.filter env.preferencePropagates).foldl
        (considerLang env) ⟨0, []⟩).preference = p := by omega
  have hAin : A ∈ ((t.implLanguages ++
      t.closureLanguages.filter env.preferencePropagates).foldl
        (considerLang env) ⟨0, []⟩).preferred :=
    foldl_considerLang_mem env _ ⟨0, []⟩ A hA (by rw [hpA, hprefF])
  have hBin : B ∈ ((t.implLanguages ++
      t.closureLanguages.filter env.preferencePropagates).foldl
        (considerLang env) ⟨0, []⟩).preferred :=
    foldl_considerLang_mem env _ ⟨0, []⟩ B hB (by rw [hpB, hprefF])
  refine ⟨_, ?_, hAin, hBin⟩
  rw [hfold]
  unfold chooseLinker
  have hlen : 1 < ((t.implLanguages ++
      t.closureLanguages.filter env.preferencePropagates).foldl
        (considerLang env) ⟨0, []⟩).preferred.length :=
    one_lt_length_of_two_mem hAin hBin hAB
  have hne : ((t.implLanguages ++
      t.closureLanguages.filter env.preferencePropagates).foldl
        (considerLang env) ⟨0, []⟩).preferred.isEmpty = false := by
    cases h : ((t.implLanguages ++
        t.closureLanguages.filter env.preferencePropagates).foldl
          (considerLang env) ⟨0, []⟩).preferred with
    | nil => rw [h] at hlen; simp at hlen
    | cons a l => simp
  rw [hne]
  simp only [Bool.false_eq_true, if_false, hlen, if_true, hprefF]

/-- Witness for C4: languages "A" and "B" both directly compiled with
preference 10. -/
theorem linker_tie_is_fatal_witness :
    ∃ langs, (computeLinkerLanguage
      ⟨fun _ => 10, fun _ => false⟩
      ⟨"tgt", none, none, ["A", "B"], []⟩).2 =
        [multipleLanguagesMsg "tgt" 10 langs] ∧
      "A" ∈ langs ∧ "B" ∈ langs := by
  exact linker_tie_is_fatal ⟨fun _ => 10, fun _ => false⟩
    ⟨"tgt", none, none, ["A", "B"], []⟩ "A" "B" 10 rfl rfl
    (by decide) (by decide) (by decide) rfl rfl (by decide) (by decide)

/-- Claim C10: a set HAS_CXX property (in particular one holding a
true value) forces the computed linker language to CXX with no
diagnostic; the explicit LINKER_LANGUAGE property and the
linker-preference selection are not consulted — the result is
independent of them.  The code tests only presence of HAS_CXX, so any
set value suffices. -/
theorem has_cxx_forces_cxx (env : LinkerEnv) (t : LinkerTargetInfo)
    (v : String) (hset : t.hasCxxProp = some v) :
    computeLinkerLanguage env t = ("CXX", []) := by
  unfold computeLinkerLanguage
  rw [hset]
  rfl

/-- Witness for C10: HAS_CXX set to ON beats an explicit
LINKER_LANGUAGE=Fortran and any preference data. -/
theorem has_cxx_forces_cxx_witness :
    computeLinkerLanguage ⟨fun _ => 42, fun _ => true⟩
      ⟨"tgt", some "ON", some "Fortran", ["Fortran"], ["C"]⟩ =
      ("CXX", []) :=
  has_cxx_forces_cxx ⟨fun _ => 42, fun _ => true⟩
    ⟨"tgt", some "ON", some "Fortran", ["Fortran"], ["C"]⟩ "ON" rfl

/-! ## Compatible-interface reconciliation
Model of consistentStringProperty, consistentNumberProperty,
consistentProperty for the string-typed (const char pointer) case and
checkInterfacePropertyCompatibility (cmGeneratorTarget.cxx).  Values
are Option String, none being a null property pointer. -/

inductive CompatibleType
  | boolType | stringType | numberMinType | numberMaxType
deriving DecidableEq, Repr

def isOctDigit (c : Char) : Bool := '0' ≤ c && c ≤ '7'

def isHexDig (c : Char) : Bool :=
  c.isDigit || ('a' ≤ c && c ≤ 'f') || ('A' ≤ c && c ≤ 'F')

def hexDigVal (c : Char) : Nat :=
  if c.isDigit then c.toNat - 48
  else if 'a' ≤ c && c ≤ 'f' then c.toNat - 87
  else c.toNat - 55

def digitsVal (base : Nat) (val : Char → Nat) (ds : List Char) : Int :=
  ds.foldl (fun a c => a * (base : Int) + (val c : Int)) 0

/-- strtol with base 0 and the full-string check of
consistentNumberProperty (pEnd must consume everything and at least
one digit): leading whitespace and an optional sign, then hex after
0x/0X, octal after a leading 0, else decimal.  The long type is
modelled as unbounded (the ERANGE check of the source never sees a
cleared errno). -/
def strtol0 (s : String) : Option Int :=
  let cs := s.data.dropWhile Char.isWhitespace
  let signAndRest : Int × List Char :=
    match cs with
    | '+' :: r => (1, r)
    | '-' :: r => (-1, r)
    | r => (1, r)
  let sign := signAndRest.1
  match signAndRest.2 with
  | '0' :: rest =>
    match rest with
    | [] => some 0
    | c :: ds =>
      if c = 'x' || c = 'X' then
        if !ds.isEmpty && ds.all isHexDig then
          some (sign * digitsVal 16 hexDigVal ds)
        else none
      else if (c :: ds).all isOctDigit then
        some (sign * digitsVal 8 (fun d => d.toNat - 48) (c :: ds))
      else none
  | ds =>
    if !ds.isEmpty && ds.all Char.isDigit then
      some (sign * digitsVal 10 (fun d => d.toNat - 48) ds)
    else none

/-- consistentStringProperty: exact equality; the agreed value is the
left operand. -/
def consistentStringProperty (lhs rhs : String) : Bool × Option String :=
  let b := lhs = rhs
  (b, if b then some lhs else none)

/-- consistentNumberProperty: parse both sides as longs; the combined
value is whichever operand holds the max (NumberMaxType) or min. -/
def consistentNumberProperty (lhs rhs : String) (t : CompatibleType) :
    Bool × Option String :=
  match strtol0 lhs with
  | none => (false, none)
  | some lnum =>
    match strtol0 rhs with
    | none => (false, none)
    | some rnum =>
      if t = .numberMaxType then
        (true, some (if max lnum rnum = lnum then lhs else rhs))
      else
        (true, some (if min lnum rnum = lnum then lhs else rhs))

/-- consistentProperty for the const char pointer specialisation: a
null side is consistent and yields the other side; BoolType is the
assertion-failure branch. -/
def consistentPropertyStr (lhs rhs : Option String) (t : CompatibleType) :
    Bool × Option String :=
  match lhs, rhs with
  | none, none => (true, none)
  | none, some r => (true, some r)
  | some l, none => (true, some l)
  | some l, some r =>
    match t with
    | .boolType => (false, none)
    | .stringType =>
      let c := consistentStringProperty l r
      (c.1, c.2)
    | .numberMinType => consistentNumberProperty l r .numberMinType
    | .numberMaxType => consistentNumberProperty l r .numberMaxType

/-- One dependency of the link-implementation closure as seen by
checkInterfacePropertyCompatibility: its name, whether
INTERFACE_<p> is among its property keys, and the value read for
INTERFACE_<p>. -/
structure CompatDep where
  name : String
  ifaceSet : Bool
  ifaceValue : Option String
deriving Repr, DecidableEq

/-- The head target of the reconciliation: name, property keys,
property store and the implied-by-use record
(IsNullImpliedByLinkLibraries). -/
structure CompatTarget where
  name : String
  propKeys : List String
  getProp : String → Option String
  impliedByUse : String → Bool

def explicitMismatchMsg (p tgtName depName : String) : String :=
  "Property " ++ p ++ " on target \"" ++ tgtName ++ "\" does\n" ++
  "not match the INTERFACE_" ++ p ++ " property requirement\n" ++
  "of dependency \"" ++ depName ++ "\".\n"

def impliedConflictMsg (p tgtName depName defaultValue : String) : String :=
  "Property " ++ p ++ " on target \"" ++ tgtName ++ "\" is\n" ++
  "implied to be " ++ defaultValue ++
  " because it was used to determine the link libraries\n" ++
  "already. The INTERFACE_" ++ p ++ " property on\ndependency \"" ++
  depName ++ "\" is in conflict.\n"

def notAgreeMsg (p tgtName depName : String) : String :=
  "The INTERFACE_" ++ p ++ " property of \"" ++ depName ++ "\" does\n" ++
  "not agree with the value of " ++ p ++ " already determined\n" ++
  "for \"" ++ tgtName ++ "\".\n"

/-- The dependency loop of checkInterfacePropertyCompatibility for
string-typed properties: propContent and propInitialized evolve per
dependency; an inconsistency reports its error and breaks. -/
def checkCompatLoop (p tgtName defaultValue : String) (t : CompatibleType)
    (explicitlySet impliedByUse : Bool) :
    List CompatDep → Option String → Bool → Option String × List String
  | [], propContent, _ => (propContent, [])
  | dep :: rest, propContent, propInitialized =>
    if explicitlySet then
      if dep.ifaceSet then
        let c := consistentPropertyStr propContent dep.ifaceValue t
        if !c.1 then
          (propContent, [explicitMismatchMsg p tgtName dep.name])
        else
          checkCompatLoop p tgtName defaultValue t explicitlySet impliedByUse
            rest c.2 propInitialized
      else
        checkCompatLoop p tgtName defaultValue t explicitlySet impliedByUse
          rest propContent propInitialized
    else if impliedByUse then
      let pc : Option String := some ""
      if dep.ifaceSet then
        let c := consistentPropertyStr pc dep.ifaceValue t
        if !c.1 then
          (pc, [impliedConflictMsg p tgtName dep.name defaultValue])
        else
          checkCompatLoop p tgtName defaultValue t explicitlySet impliedByUse
            rest c.2 propInitialized
      else
        checkCompatLoop p tgtName defaultValue t explicitlySet impliedByUse
          rest pc propInitialized
    else
      if dep.ifaceSet then
        if propInitialized then
          let c := consistentPropertyStr propContent dep.ifaceValue t
          if !c.1 then
            (propContent, [notAgreeMsg p tgtName dep.name])
          else
            checkCompatLoop p tgtName defaultValue t explicitlySet impliedByUse
              rest c.2 propInitialized
        else
          checkCompatLoop p tgtName defaultValue t explicitlySet impliedByUse
            rest dep.ifaceValue true
      else
        checkCompatLoop p tgtName defaultValue t explicitlySet impliedByUse
          rest propContent propInitialized

/-- checkInterfacePropertyCompatibility (string-typed): read the own
value, the explicitly-set and implied-by-use flags, return at once
for an empty closure, else run the dependency loop with
propInitialized starting as explicitlySet. -/
def checkInterfacePropertyCompatibility (tgt : CompatTarget)
    (p defaultValue : String) (t : CompatibleType)
    (deps : List CompatDep) : Option String × List String :=
  let propContent := tgt.getProp p
  let explicitlySet := decide (p ∈ tgt.propKeys)
  let impliedByUse := tgt.impliedByUse p
  if deps.isEmpty then (propContent, [])
  else checkCompatLoop p tgt.name defaultValue t explicitlySet impliedByUse
    deps propContent explicitlySet

/-- Claim C5: with property X neither set on the target nor implied
by use, and a closure of B then C carrying numeric interface values,
the first dependency value is adopted and the second combines by
numeric maximum (for COMPATIBLE_INTERFACE_NUMBER_MAX), yielding the
operand holding the larger number and no error. -/
theorem number_max_reconciliation (tgt : CompatTarget)
    (p defaultValue nameB nameC sb sc : String) (nb nc : Int)
    (hset : p ∉ tgt.propKeys)
    (himp : tgt.impliedByUse p = false)
    (hown : tgt.getProp p = none)
    (hb : strtol0 sb = some nb)
    (hc : strtol0 sc = some nc) :
    checkInterfacePropertyCompatibility tgt p defaultValue .numberMaxType
      [⟨nameB, true, some sb⟩, ⟨nameC, true, some sc⟩] =
      (some (if max nb nc = nb then sb else sc), []) := by
  have hcons : consistentPropertyStr (some sb) (some sc) .numberMaxType =
      (true, some (if max nb nc = nb then sb else sc)) := by
    show consistentNumberProperty sb sc .numberMaxType = _
    unfold consistentNumberProperty
    rw [hb, hc]
    simp
  unfold checkInterfacePropertyCompatibility
  rw [hown]
  simp [hset, himp, checkCompatLoop, hcons]

/-- Witness for C5: INTERFACE_X=5 from B then INTERFACE_X=9 from C
resolves X to 9. -/
theorem number_max_reconciliation_witness :
    checkInterfacePropertyCompatibility
      ⟨"A", [], fun _ => none, fun _ => false⟩
      "X" "0" .numberMaxType
      [⟨"B", true, some "5"⟩, ⟨"C", true, some "9"⟩] =
      (some "9", []) := by
  have h := number_max_reconciliation
    ⟨"A", [], fun _ => none, fun _ => false⟩
    "X" "0" "B" "C" "5" "9" 5 9
    (by decide) rfl rfl (by decide) (by decide)
  rw [h]
  decide

/-! ## Link interface cache
Model of cmGeneratorTarget::GetLinkInterface over the per-config
cmHeadToLinkInterfaceMap (a std::map keyed by head target pointer,
modelled as a sorted association list over Nat keys whose first
element is begin()).  ComputeLinkInterfaceLibraries is the oracle
filling Exists and HadHeadSensitiveCondition; ComputeLinkInterface
fills the remaining payload on the AllDone pass. -/

structure OptIface where
  ifaceExists : Bool
  librariesDone : Bool
  allDone : Bool
  hadHeadSensitiveCondition : Bool
deriving Repr, DecidableEq

def mapFind : List (Nat × OptIface) → Nat → Option OptIface
  | [], _ => none
  | (k, e) :: rest, h => if h = k then some e else mapFind rest h

def mapInsert : List (Nat × OptIface) → Nat → OptIface → List (Nat × OptIface)
  | [], k, e => [(k, e)]
  | (k0, e0) :: rest, k, e =>
    if k = k0 then (k, e) :: rest
    else if k < k0 then (k, e) :: (k0, e0) :: rest
    else (k0, e0) :: mapInsert rest k e

/-- The computing path of GetLinkInterface: hm[head] (default
insertion), the LibrariesDone pass calling the oracle, and the
AllDone pass. -/
def giCompute (compute : Nat → Bool × Bool)
    (m : List (Nat × OptIface)) (head : Nat) :
    OptIface × List (Nat × OptIface) :=
  let e := (mapFind m head).getD ⟨false, false, false, false⟩
  let e1 := if !e.librariesDone then
      { ifaceExists := (compute head).1, librariesDone := true,
        allDone := e.allDone,
        hadHeadSensitiveCondition := (compute head).2 }
    else e
  let e2 := if !e1.allDone then { e1 with allDone := true } else e1
  (e2, mapInsert m head e2)

/-- GetLinkInterface for one request: when the map is nonempty and
its first entry did not record a head-sensitive condition, that first
entry is returned unchanged; otherwise the entry for this head is
computed. -/
def giStep (compute : Nat → Bool × Bool)
    (m : List (Nat × OptIface)) (head : Nat) :
    OptIface × List (Nat × OptIface) :=
  match m with
  | (_, e0) :: _ =>
    if !e0.hadHeadSensitiveCondition then (e0, m)
    else giCompute compute m head
  | [] => giCompute compute m head

/-- Claim C6: once the first computed entry records that the link
interface did not depend on the head target, every subsequent request
for any head returns that first entry and the cache map for the
configuration keeps exactly that one entry, over any sequence of
further requests. -/
theorem head_independent_single_cache_entry
    (compute : Nat → Bool × Bool) (h1 : Nat)
    (hindep : (compute h1).2 = false) :
    ∃ e1 : OptIface,
      giStep compute [] h1 = (e1, [(h1, e1)]) ∧
      e1.hadHeadSensitiveCondition = false ∧
      (∀ h, giStep compute [(h1, e1)] h = (e1, [(h1, e1)])) ∧
      (∀ heads : List Nat,
        heads.foldl (fun m h => (giStep compute m h).2) [(h1, e1)] =
          [(h1, e1)]) := by
  refine ⟨⟨(compute h1).1, true, true, false⟩, ?_, rfl, ?_, ?_⟩
  · unfold giStep giCompute
    simp [mapFind, mapInsert, hindep]
  · intro h
    unfold giStep
    simp
  · intro heads
    induction heads with
    | nil => rfl
    | cons h rest ih =>
      simp only [List.foldl_cons]
      have hstep : giStep compute
          [(h1, ⟨(compute h1).1, true, true, false⟩)] h =
          (⟨(compute h1).1, true, true, false⟩,
           [(h1, ⟨(compute h1).1, true, true, false⟩)]) := by
        unfold giStep
        simp
      rw [hstep]
      exact ih

/-- Witness for C6 at a concrete head-independent computation. -/
theorem head_independent_single_cache_entry_witness :
    ∃ e1 : OptIface,
      giStep (fun _ => (true, false)) [] 7 = (e1, [(7, e1)]) ∧
      e1.hadHeadSensitiveCondition = false ∧
      (∀ h, giStep (fun _ => (true, false)) [(7, e1)] h = (e1, [(7, e1)])) ∧
      (∀ heads : List Nat,
        heads.foldl (fun m h => (giStep (fun _ => (true, false)) m h).2)
          [(7, e1)] = [(7, e1)]) :=
  head_independent_single_cache_entry (fun _ => (true, false)) 7 rfl

/-! ## Versioned library names
Model of cmGeneratorTarget::ComputeVersionedName and the versioned
part of cmGeneratorTarget::GetLibraryNames.  The prefix, base and
suffix components come from GetFullNameInternal (platform tables,
external to these functions). -/

/-- cmGeneratorTarget::ComputeVersionedName: on APPLE the name starts
from prefix+base and ends with the suffix; elsewhere it starts from
the full name and nothing is appended after the version. -/
def computeVersionedName (isApple : Bool) (pre base suf name : String)
    (version : Option String) : String :=
  let v0 := if isApple then pre ++ base else name
  let v1 := match version with
    | some ver => v0 ++ "." ++ ver
    | none => v0
  v1 ++ (if isApple then suf else "")

/-- Modelled from the spec: the claimed ELF-style formula, "the full
computed name (prefix+base+suffix) with the version inserted before
the platform suffix". -/
def specVersionedNameELF (pre base suf ver : String) : String :=
  pre ++ base ++ "." ++ ver ++ suf

/-- The inputs of GetLibraryNames that feed the versioned-name
computation. -/
structure LibNameInputs where
  version : Option String
  soversion : Option String
  hasSOName : Bool
  platformNoVersionedSoname : Bool
  isFrameworkOnApple : Bool
  isApple : Bool
  appleIos : Bool
  frameworkVersion : String
  pre : String
  base : String
  suf : String

/-- GetLibraryNames restricted to (name, soName, realName): version
properties are dropped without an soname or under
CMAKE_PLATFORM_NO_VERSIONED_SONAME or for an Apple framework, each
of VERSION/SOVERSION defaults to the other when only one is set, and
the two versioned names are computed by ComputeVersionedName (the
framework branch uses the Versions directory layout instead). -/
def getLibraryNames (i : LibNameInputs) : String × String × String :=
  let dropVersions := !i.hasSOName || i.platformNoVersionedSoname ||
    i.isFrameworkOnApple
  let version0 := if dropVersions then none else i.version
  let soversion0 := if dropVersions then none else i.soversion
  let soversion1 := if version0.isSome && !soversion0.isSome then version0
    else soversion0
  let version1 := if !version0.isSome && soversion0.isSome then soversion0
    else version0
  let name := i.pre ++ i.base ++ i.suf
  if i.isFrameworkOnApple then
    let realName := i.pre ++
      (if !i.appleIos then "Versions/" ++ i.frameworkVersion ++ "/" else "") ++
      i.base
    (name, realName, realName)
  else
    (name,
     computeVersionedName i.isApple i.pre i.base i.suf name soversion1,
     computeVersionedName i.isApple i.pre i.base i.suf name version1)

/-- Counterexample to claim C7: on a non-Apple (ELF-style) platform
the computed versioned name appends the version after the platform
suffix (libfoo.so.2.3.1), not before it as the claimed formula
states (libfoo.2.3.1.so). -/
theorem elf_versioned_name_counterexample :
    computeVersionedName false "lib" "foo" ".so" "libfoo.so"
      (some "2.3.1") = "libfoo.so.2.3.1" ∧
    specVersionedNameELF "lib" "foo" ".so" "2.3.1" = "libfoo.2.3.1.so" ∧
    computeVersionedName false "lib" "foo" ".so" "libfoo.so"
      (some "2.3.1") ≠ specVersionedNameELF "lib" "foo" ".so" "2.3.1" := by
  refine ⟨rfl, rfl, by decide⟩

/-- Claim C7 (amended): for a versioned shared library (soname
supported, no no-versioned-soname platform flag, not an Apple
framework) with VERSION set and SOVERSION defaulting to it, the
Apple-style SONAME/real name is prefix+base with the version appended
as a dotted suffix before the platform suffix, while the non-Apple
(ELF-style) SONAME/real name is the full computed name
(prefix+base+suffix) with the version appended as a dotted suffix
after it. -/
theorem versioned_library_names (i : LibNameInputs) (v : String)
    (hso : i.hasSOName = true)
    (hnv : i.platformNoVersionedSoname = false)
    (hfw : i.isFrameworkOnApple = false)
    (hver : i.version = some v)
    (hsov : i.soversion = none) :
    getLibraryNames i =
      (i.pre ++ i.base ++ i.suf,
       if i.isApple then i.pre ++ i.base ++ "." ++ v ++ i.suf
       else i.pre ++ i.base ++ i.suf ++ "." ++ v,
       if i.isApple then i.pre ++ i.base ++ "." ++ v ++ i.suf
       else i.pre ++ i.base ++ i.suf ++ "." ++ v) := by
  unfold getLibraryNames computeVersionedName
  rw [hso, hnv, hfw, hver, hsov]
  cases hap : i.isApple <;>
    simp [String.append_assoc]

/-- Witness for the amended C7: lib/foo/.so with version 2.3.1 on
both platform styles. -/
theorem versioned_library_names_witness :
    getLibraryNames ⟨some "2.3.1", none, true, false, false, false, false,
        "A", "lib", "foo", ".so"⟩ =
      ("libfoo.so", "libfoo.so.2.3.1", "libfoo.so.2.3.1") ∧
    getLibraryNames ⟨some "2.3.1", none, true, false, false, true, false,
        "A", "lib", "foo", ".dylib"⟩ =
      ("libfoo.dylib", "libfoo.2.3.1.dylib", "libfoo.2.3.1.dylib") := by
  constructor
  · have h := versioned_library_names
      ⟨some "2.3.1", none, true, false, false, false, false,
        "A", "lib", "foo", ".so"⟩ "2.3.1" rfl rfl rfl rfl rfl
    rw [h]
    rfl
  · have h := versioned_library_names
      ⟨some "2.3.1", none, true, false, false, true, false,
        "A", "lib", "foo", ".dylib"⟩ "2.3.1" rfl rfl rfl rfl rfl
    rw [h]
    rfl

end CMake
